import Mathlib

/-!
Shallow embedding of `src/cartoes_auto.py` (iwbf-cards).

The program composes a printable PDF of two-sided cards: it detects card
rectangles in a template PDF (`detectar_slots_template`), splits each card
PDF page into left/right halves, trims white borders around each half
(`compute_trimmed_clip`), fits and centers each half into its slot
(`fit_and_center`) and paginates the result (`gerar_pdf_final`).

Modelling conventions:
- Page coordinates are exact rationals (the source uses Python floats).
- Rasterization is performed by PyMuPDF (`page.get_pixmap`), which is
  external to the repository; it is modelled as data: `compute_trimmed_clip`
  receives the pixmap that the source renders internally, and a `Card`
  carries its (deterministic) rasterizer as a function from clip rectangles
  to pixmaps.
- `round(x, 1)` from Python is modelled as exact half-up rounding to one
  decimal on rationals (Python uses round-half-to-even on binary floats; no
  claim and no concrete input in this file hits a tie).
- Python `sorted` is stable; `List.insertionSort` is used for it. The two
  can differ only in the relative order of elements with equal keys; no
  claim and no concrete input in this file depends on tie order.
- A drawn output page (one `showPage` call of the ReportLab canvas) is a
  `Page`: its size, whether the template background image was drawn on it,
  and the list of card-half `Placement`s drawn on it, in drawing order.
-/

/-- Axis-aligned rectangle in page units, top-left origin (PyMuPDF
`fitz.Rect`): `(x0, y0)` top-left corner, `(x1, y1)` bottom-right corner. -/
structure Rect where
  x0 : ℚ
  y0 : ℚ
  x1 : ℚ
  y1 : ℚ
deriving DecidableEq, Inhabited

/-- Width of a rectangle (`r.width` in PyMuPDF). -/
def Rect.width (r : Rect) : ℚ := r.x1 - r.x0

/-- Height of a rectangle (`r.height` in PyMuPDF). -/
def Rect.height (r : Rect) : ℚ := r.y1 - r.y0

/-- Area of a rectangle. -/
def Rect.area (r : Rect) : ℚ := r.width * r.height

/-- Python `round(q, 1)`: rounding to one decimal place, modelled as exact
half-up rounding on rationals. -/
def pyRound1 (q : ℚ) : ℚ := ((q * 10 + 1 / 2).floor : ℤ) / 10

/-- A rasterized region (PyMuPDF `Pixmap`): pixel width and height, number
of channels `n`, and the flat `samples` byte buffer of length
`width * height * n` (row-major, `n` bytes per pixel). -/
structure Pixmap where
  width : Nat
  height : Nat
  n : Nat
  samples : List Nat
deriving DecidableEq, Inhabited

/-- Byte access into the samples buffer (`samples[idx]` in the source; the
source assumes the index is in range, out-of-range reads default to 0 here). -/
def Pixmap.sample (p : Pixmap) (idx : Nat) : Nat := p.samples.getD idx 0

/-- One pixel of the scan loop body of `compute_trimmed_clip`
(src/cartoes_auto.py lines 95-101): read the R/G/B channels at `(x, y)`
(falling back to the first channel when `n` is 1 or 2) and report content
when any channel is strictly below `bg_threshold`. -/
def pixelIsContent (pix : Pixmap) (bg_threshold : Nat) (x y : Nat) : Bool :=
  let idx := y * pix.width * pix.n + x * pix.n
  let r := pix.sample idx
  let g := if 1 < pix.n then pix.sample (idx + 1) else pix.sample idx
  let b := if 2 < pix.n then pix.sample (idx + 2) else pix.sample idx
  decide (r < bg_threshold) || decide (g < bg_threshold) || decide (b < bg_threshold)

/-- State of the bounding-box scan: the four loop variables
`min_x, min_y, max_x, max_y` of `compute_trimmed_clip`. They are integers
because `max_x`/`max_y` start at the sentinel `-1`. -/
structure ScanState where
  min_x : Int
  min_y : Int
  max_x : Int
  max_y : Int
deriving DecidableEq

/-- One step of the pixel scan loop of `compute_trimmed_clip`
(src/cartoes_auto.py lines 92-109) at pixel `p = (y, x)`: when the pixel is
content, shrink the minima and grow the maxima, exactly as the four `if`
statements of the source do. -/
def scanStep (pix : Pixmap) (bg_threshold : Nat) (st : ScanState)
    (p : Nat × Nat) : ScanState :=
  if pixelIsContent pix bg_threshold p.2 p.1 then
    { min_x := if (p.2 : Int) < st.min_x then (p.2 : Int) else st.min_x
      min_y := if (p.1 : Int) < st.min_y then (p.1 : Int) else st.min_y
      max_x := if (p.2 : Int) > st.max_x then (p.2 : Int) else st.max_x
      max_y := if (p.1 : Int) > st.max_y then (p.1 : Int) else st.max_y }
  else st

/-- The nested pixel loop of `compute_trimmed_clip`
(src/cartoes_auto.py lines 89-109): starting from
`(min_x, min_y, max_x, max_y) = (w, h, -1, -1)`, fold `scanStep` over all
pixels `(y, x)` with `y < h` outer and `x < w` inner. -/
def scanBounds (pix : Pixmap) (bg_threshold : Nat) : ScanState :=
  ((List.range pix.height).flatMap
      (fun y => (List.range pix.width).map (fun x => (y, x)))).foldl
    (scanStep pix bg_threshold)
    ⟨(pix.width : Int), (pix.height : Int), -1, -1⟩

/-- Content-aware trim (`compute_trimmed_clip`, src/cartoes_auto.py lines
77-124). In the source the function takes the page and renders `base_clip`
at the given `zoom` via `page.get_pixmap`; rasterization is external to the
repository, so the rendered pixmap `pix` is an explicit argument here.
Scans for the bounding box of content pixels; if none is found, returns
`base_clip` unchanged; otherwise maps the pixel bounding box back to page
coordinates through `inv = 1/zoom`, adding one pixel to the max edges. -/
def compute_trimmed_clip (pix : Pixmap) (base_clip : Rect) (zoom : ℚ)
    (bg_threshold : Nat := 250) : Rect :=
  let st := scanBounds pix bg_threshold
  if st.max_x < 0 ∨ st.max_y < 0 then base_clip
  else
    let inv : ℚ := 1 / zoom
    { x0 := base_clip.x0 + (st.min_x : ℚ) * inv
      y0 := base_clip.y0 + (st.min_y : ℚ) * inv
      x1 := base_clip.x0 + ((st.max_x : ℚ) + 1) * inv
      y1 := base_clip.y0 + ((st.max_y : ℚ) + 1) * inv }

/-- Coordinate transform (`rect_to_reportlab_coords`, src/cartoes_auto.py
lines 64-72): PyMuPDF top-left origin to ReportLab bottom-left origin.
Returns `(x, y, w, h)`. -/
def rect_to_reportlab_coords (r : Rect) (page_height : ℚ) : ℚ × ℚ × ℚ × ℚ :=
  (r.x0, page_height - r.y1, r.width, r.height)

/-- Fit-and-center (`fit_and_center`, src/cartoes_auto.py lines 127-147):
uniform scale `min(slot_w/img_w, slot_h/img_h) * margin_factor`, then
center the scaled raster in the slot. Returns `(x, y, render_w, render_h)`. -/
def fit_and_center (slot_x slot_y slot_w slot_h : ℚ) (pix : Pixmap)
    (margin_factor : ℚ := 95 / 100) : ℚ × ℚ × ℚ × ℚ :=
  let img_w : ℚ := (pix.width : ℚ)
  let img_h : ℚ := (pix.height : ℚ)
  let scale := min (slot_w / img_w) (slot_h / img_h) * margin_factor
  let render_w := img_w * scale
  let render_h := img_h * scale
  (slot_x + (slot_w - render_w) / 2, slot_y + (slot_h - render_h) / 2,
    render_w, render_h)

/-- Error kinds of the generation pipeline (spec section 7). The source
raises `RuntimeError` with descriptive strings; the spec names them:
`NoGeometry` for "No card rectangles found in template PDF.",
`InsufficientGeometry` for "Template does not contain enough card
rectangles.", `InvalidLayout` for "Template row has ... rectangles;
expected an even number (2 per card).". `MalformedCardDocument` and
`MalformedTemplateDocument` arise in the external PDF parser (`fitz.open`)
and are listed for completeness; they are not produced by this model, which
starts from parsed documents. `NonTermination` marks exhaustion of the fuel
that models the `while` loop of `gerar_pdf_final`; it is proved unreachable
once the first-row validation has passed. -/
inductive GenError where
  | NoGeometry
  | InsufficientGeometry
  | InvalidLayout
  | MalformedCardDocument
  | MalformedTemplateDocument
  | NonTermination
deriving DecidableEq

/-- A parsed template document: the first page's rectangle (`page.rect`)
and its vector drawing primitives, each optionally carrying a bounding
rectangle (`d.get("rect")` may be `None`). -/
structure Template where
  pageRect : Rect
  drawings : List (Option Rect)

/-- Candidate rectangles of the template (src/cartoes_auto.py lines 25-31):
every drawing rectangle whose width and height both exceed 20 page units. -/
def candidateRects (t : Template) : List Rect :=
  (t.drawings.filterMap id).filter
    (fun r => decide (20 < r.width) && decide (20 < r.height))

/-- The rounded `(width, height)` size key of a rectangle
(src/cartoes_auto.py line 39). -/
def roundedSize (r : Rect) : ℚ × ℚ := (pyRound1 r.width, pyRound1 r.height)

/-- The multiset of rounded sizes of the candidate rectangles. -/
def sizesOf (t : Template) : List (ℚ × ℚ) := (candidateRects t).map roundedSize

/-- The most common rounded rectangle size
(`size_counter.most_common(1)[0]`, src/cartoes_auto.py lines 39-40):
the size of maximal multiplicity; `Counter.most_common` breaks ties toward
the first-encountered size, as does `List.argmax`. `none` only for an empty
candidate list. -/
def mainSizeOf (t : Template) : Option (ℚ × ℚ) :=
  (sizesOf t).argmax (fun s => (sizesOf t).count s)

/-- Row grouping (src/cartoes_auto.py lines 47-58): group the kept
rectangles by `round(y0, 1)`, sort the row keys top to bottom, and sort
each row left to right by `x0`. -/
def groupRows (card_rects : List Rect) : List (List Rect) :=
  let row_keys :=
    ((card_rects.map (fun r => pyRound1 r.y0)).dedup).insertionSort
      (fun a b => a ≤ b)
  row_keys.map (fun y =>
    (card_rects.filter (fun r => decide (pyRound1 r.y0 = y))).insertionSort
      (fun a b => a.x0 ≤ b.x0))

/-- Template slot detection (`detectar_slots_template`, src/cartoes_auto.py
lines 10-61): filter candidate rectangles, fail with `NoGeometry` when none
remain, keep the rectangles of the most common rounded size, fail with
`InsufficientGeometry` when fewer than 2 remain, and return the page
rectangle, the flattened row-major slot list, and the row-grouped grid.
The `none` branch of `mainSizeOf` is unreachable (candidates are nonempty
there); it maps to `NoGeometry`, matching the only way `most_common` can
find nothing. -/
def detectar_slots_template (t : Template) :
    Except GenError (Rect × List Rect × List (List Rect)) :=
  let rects := candidateRects t
  if rects.isEmpty then .error .NoGeometry
  else
    match mainSizeOf t with
    | none => .error .NoGeometry
    | some main_size =>
      let card_rects := rects.filter (fun r => decide (roundedSize r = main_size))
      if card_rects.length < 2 then .error .InsufficientGeometry
      else
        let rows := groupRows card_rects
        .ok (t.pageRect, rows.flatten, rows)

/-- A parsed one-page card document: the page rectangle (`page_card.rect`)
and its rasterizer (`page_card.get_pixmap` at `zoom_card` for a given clip;
deterministic, external to the repository, modelled as data). -/
structure Card where
  rect : Rect
  render : Rect → Pixmap

instance : Inhabited Card := ⟨⟨default, fun _ => default⟩⟩

/-- Which half of a card a placement draws. -/
inductive Side where
  | left
  | right
deriving DecidableEq

/-- One `c.drawImage` call for a card half: which card (index in the input
order) and which half the drawn image came from, and the geometry
`(x, y, width, height)` passed to `drawImage` in canvas units. -/
structure Placement where
  cardIdx : Nat
  side : Side
  x : ℚ
  y : ℚ
  w : ℚ
  h : ℚ
deriving DecidableEq

/-- One output page (one `showPage` call): the canvas page size, whether
the template background image was drawn, and the card-half placements in
drawing order. -/
structure Page where
  width : ℚ
  height : ℚ
  hasBackground : Bool
  placements : List Placement

/-- The fixed 300 dpi rasterization scale (`zoom_card = 300 / 72.0`,
src/cartoes_auto.py line 187). -/
def zoom_card : ℚ := 300 / 72

/-- The per-card loop body of `gerar_pdf_final` (src/cartoes_auto.py lines
199-238): split the card page at its horizontal midpoint into left/right
base clips, trim each half (`compute_trimmed_clip` renders the base clip
internally in the source; here the card's rasterizer supplies that pixmap),
rasterize each trimmed clip, convert the two slots to ReportLab
coordinates, and fit-and-center each half in its slot. Returns the left and
right placements for card number `card_idx`. -/
def placeCardInRow (page_height : ℚ) (slot_left slot_right : Rect)
    (card : Card) (card_idx : Nat) : Placement × Placement :=
  let card_w := card.rect.width
  let card_h := card.rect.height
  let half_w := card_w / 2
  let base_L : Rect := ⟨0, 0, half_w, card_h⟩
  let base_R : Rect := ⟨half_w, 0, card_w, card_h⟩
  let clip_L := compute_trimmed_clip (card.render base_L) base_L zoom_card
  let clip_R := compute_trimmed_clip (card.render base_R) base_R zoom_card
  let pix_L := card.render clip_L
  let pix_R := card.render clip_R
  let sL := rect_to_reportlab_coords slot_left page_height
  let sR := rect_to_reportlab_coords slot_right page_height
  let fL := fit_and_center sL.1 sL.2.1 sL.2.2.1 sL.2.2.2 pix_L
  let fR := fit_and_center sR.1 sR.2.1 sR.2.2.1 sR.2.2.2 pix_R
  (⟨card_idx, .left, fL.1, fL.2.1, fL.2.2.1, fL.2.2.2⟩,
    ⟨card_idx, .right, fR.1, fR.2.1, fR.2.2.1, fR.2.2.2⟩)

/-- One step of the row loop (src/cartoes_auto.py lines 193-240), acting on
the state `(placements drawn so far on this page, card_idx)`. The source
`break`s out of the row loop when `card_idx >= total_cards`; since
`card_idx` never decreases, skipping every remaining row is the same, so
the `break` is modelled as a skip. A row with fewer than 2 slots is skipped
(`continue`); otherwise the current card is placed into the row's first two
slots and `card_idx` advances. -/
def processRow (page_height : ℚ) (cards : List Card)
    (st : List Placement × Nat) (row : List Rect) : List Placement × Nat :=
  if cards.length ≤ st.2 then st
  else
    match row with
    | s0 :: s1 :: _ =>
      let pr := placeCardInRow page_height s0 s1 (cards.getD st.2 default) st.2
      (st.1 ++ [pr.1, pr.2], st.2 + 1)
    | _ => st

/-- One iteration of the `while` loop of `gerar_pdf_final`
(src/cartoes_auto.py lines 189-242): draw the template background (in
template mode), run the row loop over every template row, and close the
page with `showPage`. Returns the drawn page and the new `card_idx`. -/
def processPage (page_width page_height : ℚ) (rows : List (List Rect))
    (cards : List Card) (card_idx : Nat) (hasBg : Bool) : Page × Nat :=
  let st := rows.foldl (processRow page_height cards) ([], card_idx)
  (⟨page_width, page_height, hasBg, st.1⟩, st.2)

/-- The `while card_idx < total_cards` pagination loop of `gerar_pdf_final`
(src/cartoes_auto.py lines 189-242), modelled with explicit fuel: `none`
means the fuel was exhausted before all cards were consumed (the source
loop would keep drawing pages forever when no row can accept a card; with
the first-row validation in place this never happens, see the termination
theorem). -/
def paginate (page_width page_height : ℚ) (rows : List (List Rect))
    (cards : List Card) (hasBg : Bool) : Nat → Nat → Option (List Page)
  | fuel, card_idx =>
    if cards.length ≤ card_idx then some []
    else
      match fuel with
      | 0 => none
      | fuel' + 1 =>
        let pg := processPage page_width page_height rows cards card_idx hasBg
        match paginate page_width page_height rows cards hasBg fuel' pg.2 with
        | some pages => some (pg.1 :: pages)
        | none => none

/-- Main PDF generation (`gerar_pdf_final`, src/cartoes_auto.py lines
152-245): detect the template grid, validate that the first row's slot
count is even and at least 2 (else `InvalidLayout`), then run the
pagination loop over the cards, drawing the template background on every
page. The output is the sequence of drawn pages. Fuel `cards.length`
suffices because each page consumes at least one card once validation has
passed. -/
def gerar_pdf_final (t : Template) (cards : List Card) :
    Except GenError (List Page) :=
  match detectar_slots_template t with
  | .error e => .error e
  | .ok (page_rect, _slots_flat, rows) =>
    let slots_per_row := (rows.headD []).length
    if slots_per_row < 2 ∨ slots_per_row % 2 ≠ 0 then .error .InvalidLayout
    else
      match paginate page_rect.width page_rect.height rows cards true
          cards.length 0 with
      | some pages => .ok pages
      | none => .error .NonTermination

/-- Modelled from the spec: the no-template / fixed-grid mode (spec section
4.6) is code of this repository that is not under `src/`. Contract from the
spec: standard page size, fixed row count 5 and column count 2, fixed page
margins of 36 units, usable area evenly divided into slot rectangles. The
standard (US letter) page is 612 by 792 units. -/
def letter_width : ℚ := 612

/-- Modelled from the spec: standard page height of the no-template mode. -/
def letter_height : ℚ := 792

/-- Modelled from the spec: the synthesized 5-row, 2-column grid of the
no-template mode, with 36-unit margins and the usable area evenly divided:
each slot is `(612 - 72) / 2` wide and `(792 - 72) / 5` tall. -/
def synth_rows : List (List Rect) :=
  let slot_w : ℚ := (letter_width - 2 * 36) / 2
  let slot_h : ℚ := (letter_height - 2 * 36) / 5
  (List.range 5).map (fun i =>
    (List.range 2).map (fun j =>
      ⟨36 + (j : ℚ) * slot_w, 36 + (i : ℚ) * slot_h,
        36 + ((j : ℚ) + 1) * slot_w, 36 + ((i : ℚ) + 1) * slot_h⟩))

/-- Modelled from the spec: the no-template generation operation (spec
section 4.6), reusing the per-card pipeline (`processRow`,
`placeCardInRow`, `compute_trimmed_clip`, `fit_and_center`) through the
same pagination loop, with no background image drawn. -/
def gerar_pdf_sem_template (cards : List Card) : Option (List Page) :=
  paginate letter_width letter_height synth_rows cards false cards.length 0

/-- A 1 by 1 all-black RGB pixmap (a fully content pixel). -/
def pixBlack : Pixmap := ⟨1, 1, 3, [0, 0, 0]⟩

/-- A 4 by 2 all-white RGB pixmap (used to exercise `fit_and_center`). -/
def pixFit : Pixmap := ⟨4, 2, 3, List.replicate 24 255⟩

/-- A 2 by 2 RGB pixmap whose only content pixel is at `(0, 0)`. -/
def pixTrim : Pixmap := ⟨2, 2, 3, [0, 0, 0] ++ List.replicate 9 255⟩

/-- A card whose page is 400 by 150 units and whose rasterizer returns the
1 by 1 black pixmap for every clip. -/
def cardA : Card := { rect := ⟨0, 0, 400, 150⟩, render := fun _ => pixBlack }

/-- A template whose detected grid is ragged: the first row has 2 slots,
the second row has 3 (all five rectangles share the size 30 by 30). -/
def T1 : Template :=
  { pageRect := ⟨0, 0, 450, 300⟩
    drawings := [some ⟨0, 0, 30, 30⟩, some ⟨40, 0, 70, 30⟩,
      some ⟨0, 100, 30, 130⟩, some ⟨40, 100, 70, 130⟩,
      some ⟨80, 100, 110, 130⟩] }

/-- The grid that detection finds in `T1`: first row 2 slots, second row 3. -/
def rowsT1 : List (List Rect) :=
  [[⟨0, 0, 30, 30⟩, ⟨40, 0, 70, 30⟩],
   [⟨0, 100, 30, 130⟩, ⟨40, 100, 70, 130⟩, ⟨80, 100, 110, 130⟩]]

/-- A template with a uniform 2 by 2 grid of 100 by 100 slots. -/
def T2 : Template :=
  { pageRect := ⟨0, 0, 500, 500⟩
    drawings := [some ⟨10, 0, 110, 100⟩, some ⟨200, 0, 300, 100⟩,
      some ⟨10, 200, 110, 300⟩, some ⟨200, 200, 300, 300⟩] }

/-- The grid that detection finds in `T2`: two rows of two slots each. -/
def rowsT2 : List (List Rect) :=
  [[⟨10, 0, 110, 100⟩, ⟨200, 0, 300, 100⟩],
   [⟨10, 200, 110, 300⟩, ⟨200, 200, 300, 300⟩]]

/-- A template whose single detected row has 3 slots. -/
def T3 : Template :=
  { pageRect := ⟨0, 0, 450, 140⟩
    drawings := [some ⟨0, 0, 30, 30⟩, some ⟨40, 0, 70, 30⟩,
      some ⟨80, 0, 110, 30⟩] }

/-- The grid that detection finds in `T3`: one row of 3 slots. -/
def rowsT3 : List (List Rect) :=
  [[⟨0, 0, 30, 30⟩, ⟨40, 0, 70, 30⟩, ⟨80, 0, 110, 30⟩]]

/-- A template whose first detected row has a single slot (the second row
has two). -/
def T4 : Template :=
  { pageRect := ⟨0, 0, 450, 300⟩
    drawings := [some ⟨0, 0, 30, 30⟩,
      some ⟨0, 50, 30, 80⟩, some ⟨40, 50, 70, 80⟩] }

/-- The grid that detection finds in `T4`: a 1-slot row above a 2-slot row. -/
def rowsT4 : List (List Rect) :=
  [[⟨0, 0, 30, 30⟩], [⟨0, 50, 30, 80⟩, ⟨40, 50, 70, 80⟩]]

/-- A template with two 30 by 30 card rectangles and one 25 by 40 noise
rectangle: the majority size vote keeps the two card rectangles. -/
def T5 : Template :=
  { pageRect := ⟨0, 0, 450, 140⟩
    drawings := [some ⟨0, 0, 25, 40⟩, some ⟨100, 0, 130, 30⟩,
      some ⟨140, 0, 170, 30⟩] }

/-- The pair of placements that the row loop of `gerar_pdf_final` draws
when it places card number `i` into a row: the card's left half into the
row's first slot and its right half into the row's second slot; a row with
fewer than 2 slots receives nothing. Used to characterize the driver's
output. -/
def rowPlacements (page_height : ℚ) (cards : List Card) (row : List Rect)
    (i : Nat) : List Placement :=
  match row with
  | s0 :: s1 :: _ =>
    [(placeCardInRow page_height s0 s1 (cards.getD i default) i).1,
      (placeCardInRow page_height s0 s1 (cards.getD i default) i).2]
  | _ => []

/-- The flat list of placement geometries `(x, y, width, height)` of a
generation result, empty on error. -/
def resultPlacements (r : Except GenError (List Page)) :
    List (ℚ × ℚ × ℚ × ℚ) :=
  match r with
  | .ok pages =>
    pages.flatMap (fun pg => pg.placements.map (fun p => (p.x, p.y, p.w, p.h)))
  | .error _ => []

/-- Totality of the left-to-right slot order used to sort a row. -/
instance : IsTotal Rect (fun a b => a.x0 ≤ b.x0) :=
  ⟨fun a b => le_total a.x0 b.x0⟩

/-- Transitivity of the left-to-right slot order used to sort a row. -/
instance : IsTrans Rect (fun a b => a.x0 ≤ b.x0) :=
  ⟨fun _ _ _ h1 h2 => le_trans h1 h2⟩

/-! ## Lemmas about the trim scan loop -/

/-- A non-content pixel leaves the scan state unchanged. -/
theorem scanStep_not_content {pix : Pixmap} {thr : Nat} {st : ScanState}
    {p : Nat × Nat} (h : pixelIsContent pix thr p.2 p.1 = false) :
    scanStep pix thr st p = st := by
  simp [scanStep, h]

/-- Folding `scanStep` over non-content pixels leaves the state unchanged. -/
theorem foldl_scanStep_no_content (pix : Pixmap) (thr : Nat) :
    ∀ (l : List (Nat × Nat)) (st : ScanState),
      (∀ p ∈ l, pixelIsContent pix thr p.2 p.1 = false) →
      l.foldl (scanStep pix thr) st = st := by
  intro l
  induction l with
  | nil => intro st _; rfl
  | cons p l ih =>
    intro st h
    rw [List.foldl_cons, scanStep_not_content (h p (List.mem_cons_self p l)),
      ih st (fun q hq => h q (List.mem_cons_of_mem p hq))]

/-- When no scanned pixel is content, the scan ends in its initial sentinel
state `(w, h, -1, -1)`. -/
theorem scanBounds_no_content (pix : Pixmap) (thr : Nat)
    (h : ∀ y < pix.height, ∀ x < pix.width, pixelIsContent pix thr x y = false) :
    scanBounds pix thr = ⟨(pix.width : Int), (pix.height : Int), -1, -1⟩ := by
  unfold scanBounds
  apply foldl_scanStep_no_content
  intro p hp
  obtain ⟨y, hy, hp2⟩ := List.mem_flatMap.mp hp
  obtain ⟨x, hx, rfl⟩ := List.mem_map.mp hp2
  rw [List.mem_range] at hy hx
  exact h y hy x hx

/-- Folding `scanStep` over in-range pixels preserves the scan invariant:
the state is either the sentinel or a well-formed bounding box
`0 ≤ min ≤ max < dimension` on both axes. -/
theorem foldl_scanStep_inv (pix : Pixmap) (thr : Nat) :
    ∀ (l : List (Nat × Nat)) (st : ScanState),
      (∀ p ∈ l, p.1 < pix.height ∧ p.2 < pix.width) →
      (st = ⟨(pix.width : Int), (pix.height : Int), -1, -1⟩ ∨
        (0 ≤ st.min_x ∧ st.min_x ≤ st.max_x ∧ st.max_x < (pix.width : Int) ∧
          0 ≤ st.min_y ∧ st.min_y ≤ st.max_y ∧ st.max_y < (pix.height : Int))) →
      ((l.foldl (scanStep pix thr) st) = ⟨(pix.width : Int), (pix.height : Int), -1, -1⟩ ∨
        (0 ≤ (l.foldl (scanStep pix thr) st).min_x ∧
          (l.foldl (scanStep pix thr) st).min_x ≤ (l.foldl (scanStep pix thr) st).max_x ∧
          (l.foldl (scanStep pix thr) st).max_x < (pix.width : Int) ∧
          0 ≤ (l.foldl (scanStep pix thr) st).min_y ∧
          (l.foldl (scanStep pix thr) st).min_y ≤ (l.foldl (scanStep pix thr) st).max_y ∧
          (l.foldl (scanStep pix thr) st).max_y < (pix.height : Int))) := by
  intro l
  induction l with
  | nil => intro st _ hst; exact hst
  | cons p l ih =>
    intro st h hst
    rw [List.foldl_cons]
    refine ih (scanStep pix thr st p) (fun q hq => h q (List.mem_cons_of_mem p hq)) ?_
    have hx' : (p.2 : Int) < (pix.width : Int) := by
      exact_mod_cast (h p (List.mem_cons_self p l)).2
    have hy' : (p.1 : Int) < (pix.height : Int) := by
      exact_mod_cast (h p (List.mem_cons_self p l)).1
    have hx0 : (0 : Int) ≤ (p.2 : Int) := Int.ofNat_nonneg p.2
    have hy0 : (0 : Int) ≤ (p.1 : Int) := Int.ofNat_nonneg p.1
    unfold scanStep
    split
    · rcases hst with rfl | ⟨h1, h2, h3, h4, h5, h6⟩
      · right
        dsimp only
        refine ⟨?_, ?_, ?_, ?_, ?_, ?_⟩ <;> split_ifs <;> omega
      · right
        dsimp only
        refine ⟨?_, ?_, ?_, ?_, ?_, ?_⟩ <;> split_ifs <;> omega
    · exact hst

/-- The scan either stays in its sentinel state, or ends with a well-formed
bounding box: `0 ≤ min ≤ max < dimension` on both axes. -/
theorem scanBounds_cases (pix : Pixmap) (thr : Nat) :
    scanBounds pix thr = ⟨(pix.width : Int), (pix.height : Int), -1, -1⟩ ∨
    (0 ≤ (scanBounds pix thr).min_x ∧
      (scanBounds pix thr).min_x ≤ (scanBounds pix thr).max_x ∧
      (scanBounds pix thr).max_x < (pix.width : Int) ∧
      0 ≤ (scanBounds pix thr).min_y ∧
      (scanBounds pix thr).min_y ≤ (scanBounds pix thr).max_y ∧
      (scanBounds pix thr).max_y < (pix.height : Int)) := by
  unfold scanBounds
  apply foldl_scanStep_inv
  · intro p hp
    obtain ⟨y, hy, hp2⟩ := List.mem_flatMap.mp hp
    obtain ⟨x, hx, rfl⟩ := List.mem_map.mp hp2
    rw [List.mem_range] at hy hx
    exact ⟨hy, hx⟩
  · exact Or.inl rfl

/-- C4: for every pixmap rendered from the base clip (its pixel dimensions
bounded by the clip scaled by the positive zoom), the rectangle returned by
content-aware trim is contained in the base clip and its area never exceeds
the base clip's area; and when the rendered clip contains no content pixel
(no pixel with any channel strictly below the threshold), the base clip is
returned unchanged. -/
theorem claim_C4_trim_contained (pix : Pixmap) (base_clip : Rect) (zoom : ℚ)
    (thr : Nat) (hz : 0 < zoom)
    (hw : (pix.width : ℚ) ≤ zoom * base_clip.width)
    (hh : (pix.height : ℚ) ≤ zoom * base_clip.height) :
    (base_clip.x0 ≤ (compute_trimmed_clip pix base_clip zoom thr).x0 ∧
      (compute_trimmed_clip pix base_clip zoom thr).x1 ≤ base_clip.x1 ∧
      base_clip.y0 ≤ (compute_trimmed_clip pix base_clip zoom thr).y0 ∧
      (compute_trimmed_clip pix base_clip zoom thr).y1 ≤ base_clip.y1 ∧
      (compute_trimmed_clip pix base_clip zoom thr).area ≤ base_clip.area) ∧
    ((∀ y < pix.height, ∀ x < pix.width,
        pixelIsContent pix thr x y = false) →
      compute_trimmed_clip pix base_clip zoom thr = base_clip) := by
  constructor
  · rcases scanBounds_cases pix thr with hE | ⟨h1, h2, h3, h4, h5, h6⟩
    · unfold compute_trimmed_clip
      rw [hE]
      norm_num
    · have hmax : ¬((scanBounds pix thr).max_x < 0 ∨
          (scanBounds pix thr).max_y < 0) := by
        push_neg
        omega
      unfold compute_trimmed_clip
      rw [if_neg hmax]
      have hz' : (0 : ℚ) < 1 / zoom := by positivity
      have q1 : (0 : ℚ) ≤ ((scanBounds pix thr).min_x : ℚ) := by exact_mod_cast h1
      have q2 : ((scanBounds pix thr).min_x : ℚ) ≤ ((scanBounds pix thr).max_x : ℚ) := by
        exact_mod_cast h2
      have q3 : ((scanBounds pix thr).max_x : ℚ) + 1 ≤ (pix.width : ℚ) := by
        have : (scanBounds pix thr).max_x + 1 ≤ (pix.width : Int) := by omega
        exact_mod_cast this
      have q4 : (0 : ℚ) ≤ ((scanBounds pix thr).min_y : ℚ) := by exact_mod_cast h4
      have q5 : ((scanBounds pix thr).min_y : ℚ) ≤ ((scanBounds pix thr).max_y : ℚ) := by
        exact_mod_cast h5
      have q6 : ((scanBounds pix thr).max_y : ℚ) + 1 ≤ (pix.height : ℚ) := by
        have : (scanBounds pix thr).max_y + 1 ≤ (pix.height : Int) := by omega
        exact_mod_cast this
      have hwq : ((scanBounds pix thr).max_x : ℚ) + 1 ≤ zoom * base_clip.width :=
        le_trans q3 hw
      have hhq : ((scanBounds pix thr).max_y : ℚ) + 1 ≤ zoom * base_clip.height :=
        le_trans q6 hh
      have hcw : zoom * base_clip.width * (1 / zoom) = base_clip.width := by
        field_simp
      have hch : zoom * base_clip.height * (1 / zoom) = base_clip.height := by
        field_simp
      have hx1 : (((scanBounds pix thr).max_x : ℚ) + 1) * (1 / zoom) ≤
          base_clip.width := by
        calc (((scanBounds pix thr).max_x : ℚ) + 1) * (1 / zoom)
            ≤ zoom * base_clip.width * (1 / zoom) :=
              mul_le_mul_of_nonneg_right hwq (le_of_lt hz')
          _ = base_clip.width := hcw
      have hy1 : (((scanBounds pix thr).max_y : ℚ) + 1) * (1 / zoom) ≤
          base_clip.height := by
        calc (((scanBounds pix thr).max_y : ℚ) + 1) * (1 / zoom)
            ≤ zoom * base_clip.height * (1 / zoom) :=
              mul_le_mul_of_nonneg_right hhq (le_of_lt hz')
          _ = base_clip.height := hch
      have hmnx : (0 : ℚ) ≤ ((scanBounds pix thr).min_x : ℚ) * (1 / zoom) :=
        mul_nonneg q1 (le_of_lt hz')
      have hmny : (0 : ℚ) ≤ ((scanBounds pix thr).min_y : ℚ) * (1 / zoom) :=
        mul_nonneg q4 (le_of_lt hz')
      have hmono_x : ((scanBounds pix thr).min_x : ℚ) * (1 / zoom) ≤
          (((scanBounds pix thr).max_x : ℚ) + 1) * (1 / zoom) :=
        mul_le_mul_of_nonneg_right (by linarith) (le_of_lt hz')
      have hmono_y : ((scanBounds pix thr).min_y : ℚ) * (1 / zoom) ≤
          (((scanBounds pix thr).max_y : ℚ) + 1) * (1 / zoom) :=
        mul_le_mul_of_nonneg_right (by linarith) (le_of_lt hz')
      simp only [Rect.area, Rect.width, Rect.height] at *
      refine ⟨by linarith, by linarith, by linarith, by linarith, ?_⟩
      have e1 : (base_clip.x0 + (((scanBounds pix thr).max_x : ℚ) + 1) * (1 / zoom)) -
          (base_clip.x0 + ((scanBounds pix thr).min_x : ℚ) * (1 / zoom)) ≤
          base_clip.x1 - base_clip.x0 := by linarith
      have e2 : (base_clip.y0 + (((scanBounds pix thr).max_y : ℚ) + 1) * (1 / zoom)) -
          (base_clip.y0 + ((scanBounds pix thr).min_y : ℚ) * (1 / zoom)) ≤
          base_clip.y1 - base_clip.y0 := by linarith
      have e3 : (0 : ℚ) ≤
          (base_clip.y0 + (((scanBounds pix thr).max_y : ℚ) + 1) * (1 / zoom)) -
          (base_clip.y0 + ((scanBounds pix thr).min_y : ℚ) * (1 / zoom)) := by
        linarith
      have e4 : (0 : ℚ) ≤ base_clip.x1 - base_clip.x0 := by
        nlinarith [Nat.cast_nonneg (α := ℚ) pix.width]
      exact mul_le_mul e1 e2 e3 e4
  · intro h
    unfold compute_trimmed_clip
    rw [scanBounds_no_content pix thr h]
    norm_num

/-- C4 witness: on a concrete 2 by 2 pixmap with one content pixel, a unit
base clip and zoom 4, the trimmed clip is contained in the base clip and
its area does not exceed the base clip's area. -/
theorem claim_C4_trim_contained_witness :
    Rect.x0 ⟨0, 0, 1, 1⟩ ≤ (compute_trimmed_clip pixTrim ⟨0, 0, 1, 1⟩ 4 250).x0 ∧
    (compute_trimmed_clip pixTrim ⟨0, 0, 1, 1⟩ 4 250).x1 ≤ Rect.x1 ⟨0, 0, 1, 1⟩ ∧
    Rect.y0 ⟨0, 0, 1, 1⟩ ≤ (compute_trimmed_clip pixTrim ⟨0, 0, 1, 1⟩ 4 250).y0 ∧
    (compute_trimmed_clip pixTrim ⟨0, 0, 1, 1⟩ 4 250).y1 ≤ Rect.y1 ⟨0, 0, 1, 1⟩ ∧
    (compute_trimmed_clip pixTrim ⟨0, 0, 1, 1⟩ 4 250).area ≤
      Rect.area ⟨0, 0, 1, 1⟩ :=
  (claim_C4_trim_contained pixTrim ⟨0, 0, 1, 1⟩ 4 250
    (by norm_num)
    (by with_unfolding_all decide)
    (by with_unfolding_all decide)).1

/-- C3: for every slot with positive width and height and every raster with
positive pixel dimensions, `fit_and_center` (with margin factor in `(0, 1]`)
returns a render size that never exceeds the slot on either axis, preserves
the raster's aspect ratio, and centers the result so the leftover space is
split evenly on both axes. -/
theorem claim_C3_fit_and_center (slot_x slot_y slot_w slot_h : ℚ)
    (pix : Pixmap) (mf : ℚ)
    (hw : 0 < slot_w) (hh : 0 < slot_h)
    (hiw : 0 < pix.width) (hih : 0 < pix.height)
    (hmf0 : 0 < mf) (hmf1 : mf ≤ 1) :
    (fit_and_center slot_x slot_y slot_w slot_h pix mf).2.2.1 ≤ slot_w ∧
    (fit_and_center slot_x slot_y slot_w slot_h pix mf).2.2.2 ≤ slot_h ∧
    (fit_and_center slot_x slot_y slot_w slot_h pix mf).2.2.1 /
        (fit_and_center slot_x slot_y slot_w slot_h pix mf).2.2.2 =
      (pix.width : ℚ) / (pix.height : ℚ) ∧
    (fit_and_center slot_x slot_y slot_w slot_h pix mf).1 =
      slot_x +
        (slot_w - (fit_and_center slot_x slot_y slot_w slot_h pix mf).2.2.1) / 2 ∧
    (fit_and_center slot_x slot_y slot_w slot_h pix mf).2.1 =
      slot_y +
        (slot_h - (fit_and_center slot_x slot_y slot_w slot_h pix mf).2.2.2) / 2 := by
  have hiw' : (0 : ℚ) < (pix.width : ℚ) := by exact_mod_cast hiw
  have hih' : (0 : ℚ) < (pix.height : ℚ) := by exact_mod_cast hih
  have hsw : (0 : ℚ) < slot_w / (pix.width : ℚ) := div_pos hw hiw'
  have hsh : (0 : ℚ) < slot_h / (pix.height : ℚ) := div_pos hh hih'
  have hs0 : (0 : ℚ) <
      min (slot_w / (pix.width : ℚ)) (slot_h / (pix.height : ℚ)) * mf :=
    mul_pos (lt_min hsw hsh) hmf0
  have hsle_w :
      min (slot_w / (pix.width : ℚ)) (slot_h / (pix.height : ℚ)) * mf ≤
        slot_w / (pix.width : ℚ) := by
    calc min (slot_w / (pix.width : ℚ)) (slot_h / (pix.height : ℚ)) * mf
        ≤ min (slot_w / (pix.width : ℚ)) (slot_h / (pix.height : ℚ)) * 1 :=
          mul_le_mul_of_nonneg_left hmf1 (le_of_lt (lt_min hsw hsh))
      _ = min (slot_w / (pix.width : ℚ)) (slot_h / (pix.height : ℚ)) := mul_one _
      _ ≤ slot_w / (pix.width : ℚ) := min_le_left _ _
  have hsle_h :
      min (slot_w / (pix.width : ℚ)) (slot_h / (pix.height : ℚ)) * mf ≤
        slot_h / (pix.height : ℚ) := by
    calc min (slot_w / (pix.width : ℚ)) (slot_h / (pix.height : ℚ)) * mf
        ≤ min (slot_w / (pix.width : ℚ)) (slot_h / (pix.height : ℚ)) * 1 :=
          mul_le_mul_of_nonneg_left hmf1 (le_of_lt (lt_min hsw hsh))
      _ = min (slot_w / (pix.width : ℚ)) (slot_h / (pix.height : ℚ)) := mul_one _
      _ ≤ slot_h / (pix.height : ℚ) := min_le_right _ _
  unfold fit_and_center
  dsimp only
  refine ⟨?_, ?_, ?_, rfl, rfl⟩
  · calc (pix.width : ℚ) *
        (min (slot_w / (pix.width : ℚ)) (slot_h / (pix.height : ℚ)) * mf)
        ≤ (pix.width : ℚ) * (slot_w / (pix.width : ℚ)) :=
          mul_le_mul_of_nonneg_left hsle_w (le_of_lt hiw')
      _ = slot_w := by field_simp
  · calc (pix.height : ℚ) *
        (min (slot_w / (pix.width : ℚ)) (slot_h / (pix.height : ℚ)) * mf)
        ≤ (pix.height : ℚ) * (slot_h / (pix.height : ℚ)) :=
          mul_le_mul_of_nonneg_left hsle_h (le_of_lt hih')
      _ = slot_h := by field_simp
  · rw [mul_comm (pix.width : ℚ) _, mul_comm (pix.height : ℚ) _]
    exact mul_div_mul_left _ _ (ne_of_gt hs0)

/-- C3 witness: `fit_and_center` on a 10 by 10 slot at the origin and a
4 by 2 raster with margin factor 0.95 stays inside the slot, preserves the
2:1 aspect ratio and splits the leftover space evenly. -/
theorem claim_C3_fit_and_center_witness :
    (fit_and_center 0 0 10 10 pixFit (95 / 100)).2.2.1 ≤ 10 ∧
    (fit_and_center 0 0 10 10 pixFit (95 / 100)).2.2.2 ≤ 10 ∧
    (fit_and_center 0 0 10 10 pixFit (95 / 100)).2.2.1 /
        (fit_and_center 0 0 10 10 pixFit (95 / 100)).2.2.2 =
      (pixFit.width : ℚ) / (pixFit.height : ℚ) ∧
    (fit_and_center 0 0 10 10 pixFit (95 / 100)).1 =
      0 + (10 - (fit_and_center 0 0 10 10 pixFit (95 / 100)).2.2.1) / 2 ∧
    (fit_and_center 0 0 10 10 pixFit (95 / 100)).2.1 =
      0 + (10 - (fit_and_center 0 0 10 10 pixFit (95 / 100)).2.2.2) / 2 :=
  claim_C3_fit_and_center 0 0 10 10 pixFit (95 / 100)
    (by norm_num) (by norm_num) (by decide) (by decide)
    (by norm_num) (by norm_num)

/-! ## Lemmas about the pagination loop -/

/-- Pointwise-equal functions give equal `flatMap`s. -/
theorem listFlatMap_congr {α β : Type} {l : List α} {f g : α → List β}
    (h : ∀ a ∈ l, f a = g a) : l.flatMap f = l.flatMap g := by
  induction l with
  | nil => rfl
  | cons a l ih =>
    rw [List.flatMap_cons, List.flatMap_cons, h a (List.mem_cons_self a l),
      ih (fun b hb => h b (List.mem_cons_of_mem a hb))]

/-- Explicit form of one row step: skip when the cards are exhausted, place
the current card and advance when the row has at least two slots, skip
otherwise. -/
theorem processRow_eq (ph : ℚ) (cards : List Card) (pls : List Placement)
    (idx : Nat) (row : List Rect) :
    processRow ph cards (pls, idx) row =
      if cards.length ≤ idx then (pls, idx)
      else if 2 ≤ row.length then
        (pls ++ rowPlacements ph cards row idx, idx + 1)
      else (pls, idx) := by
  rcases row with _ | ⟨s0, _ | ⟨s1, rest⟩⟩
  · simp [processRow, rowPlacements]
  · simp [processRow, rowPlacements]
  · by_cases hle : cards.length ≤ idx
    · simp [processRow, hle]
    · have h2 : 2 ≤ (s0 :: s1 :: rest).length := by simp
      simp [processRow, rowPlacements, hle, h2]

/-- Characterization of the row loop over a page: with every row holding at
least two slots, a page starting at card index `idx` places cards
`idx, idx + 1, ...` into rows `0, 1, ...` until the rows or the cards run
out, appending the corresponding placement pairs in order. -/
theorem foldl_processRow (ph : ℚ) (cards : List Card) :
    ∀ (rows : List (List Rect)) (pls : List Placement) (idx : Nat),
      (∀ row ∈ rows, 2 ≤ row.length) →
      rows.foldl (processRow ph cards) (pls, idx) =
        (pls ++ (List.range (min rows.length (cards.length - idx))).flatMap
            (fun j => rowPlacements ph cards (rows.getD j []) (idx + j)),
          idx + min rows.length (cards.length - idx)) := by
  intro rows
  induction rows with
  | nil => intro pls idx _; simp
  | cons r rest ih =>
    intro pls idx h
    rw [List.foldl_cons, processRow_eq]
    by_cases hle : cards.length ≤ idx
    · rw [if_pos hle]
      have hz : cards.length - idx = 0 := Nat.sub_eq_zero_of_le hle
      rw [ih pls idx (fun row hr => h row (List.mem_cons_of_mem r hr))]
      simp [hz]
    · rw [if_neg hle, if_pos (h r (List.mem_cons_self r rest))]
      rw [ih (pls ++ rowPlacements ph cards r idx) (idx + 1)
        (fun row hr => h row (List.mem_cons_of_mem r hr))]
      have hmin : min (r :: rest).length (cards.length - idx) =
          min rest.length (cards.length - (idx + 1)) + 1 := by
        simp only [List.length_cons]
        omega
      rw [hmin, List.range_succ_eq_map, List.flatMap_cons, List.flatMap_map]
      have hfun : ∀ j,
          rowPlacements ph cards ((r :: rest).getD (Nat.succ j) []) (idx + Nat.succ j) =
          rowPlacements ph cards (rest.getD j []) (idx + 1 + j) := by
        intro j
        rw [List.getD_cons_succ, Nat.succ_eq_add_one,
          show idx + (j + 1) = idx + 1 + j by omega]
      simp only [Prod.mk.injEq]
      constructor
      · rw [List.append_assoc]
        congr 1
        simp only [List.getD_cons_zero, Nat.add_zero]
        congr 1
        exact listFlatMap_congr (fun j _ => (hfun j).symm)
      · omega

/-- Closed form of one `while` iteration: the drawn page and the new card
index, for grids whose rows all hold at least two slots. -/
theorem processPage_eq (pw ph : ℚ) (rows : List (List Rect))
    (cards : List Card) (idx : Nat) (bg : Bool)
    (h2 : ∀ row ∈ rows, 2 ≤ row.length) :
    processPage pw ph rows cards idx bg =
      (⟨pw, ph, bg,
          (List.range (min rows.length (cards.length - idx))).flatMap
            (fun j => rowPlacements ph cards (rows.getD j []) (idx + j))⟩,
        idx + min rows.length (cards.length - idx)) := by
  unfold processPage
  rw [foldl_processRow ph cards rows [] idx h2]
  simp

/-- Full characterization of the pagination loop for valid grids (nonempty,
every row with at least two slots) and sufficient fuel: the loop succeeds,
produces `ceil(remaining / rows)` pages, page `i` carries exactly the
placement pairs of its up-to-`rows.length` cards, and the concatenated
placements enumerate the remaining cards in input order, card `j` against
row `j mod rows.length`. -/
theorem paginate_spec (pw ph : ℚ) (cards : List Card) (bg : Bool)
    (rows : List (List Rect)) (h2 : ∀ row ∈ rows, 2 ≤ row.length)
    (hR : rows ≠ []) :
    ∀ (fuel idx : Nat), cards.length - idx ≤ fuel →
      ∃ pages, paginate pw ph rows cards bg fuel idx = some pages ∧
        pages.length = (cards.length - idx + rows.length - 1) / rows.length ∧
        (∀ i, ∀ h : i < pages.length,
          (pages.get ⟨i, h⟩).width = pw ∧ (pages.get ⟨i, h⟩).height = ph ∧
          (pages.get ⟨i, h⟩).hasBackground = bg ∧
          (pages.get ⟨i, h⟩).placements =
            (List.range
                (min rows.length (cards.length - idx - i * rows.length))).flatMap
              (fun j => rowPlacements ph cards (rows.getD j [])
                (idx + i * rows.length + j))) ∧
        pages.flatMap Page.placements =
          (List.range (cards.length - idx)).flatMap
            (fun j => rowPlacements ph cards (rows.getD (j % rows.length) [])
              (idx + j)) := by
  have hR0 : 0 < rows.length := List.length_pos.mpr hR
  intro fuel
  induction fuel with
  | zero =>
    intro idx hfuel
    have hle : cards.length ≤ idx := by omega
    have hm : cards.length - idx = 0 := by omega
    refine ⟨[], ?_, ?_, ?_, ?_⟩
    · unfold paginate
      rw [if_pos hle]
    · rw [hm]
      simp only [List.length_nil]
      symm
      apply Nat.div_eq_of_lt
      omega
    · intro i hi
      simp at hi
    · rw [hm]
      simp
  | succ fuel ih =>
    intro idx hfuel
    by_cases hle : cards.length ≤ idx
    · have hm : cards.length - idx = 0 := by omega
      refine ⟨[], ?_, ?_, ?_, ?_⟩
      · unfold paginate
        rw [if_pos hle]
      · rw [hm]
        simp only [List.length_nil]
        symm
        apply Nat.div_eq_of_lt
        omega
      · intro i hi
        simp at hi
      · rw [hm]
        simp
    · have hlt : idx < cards.length := by omega
      obtain ⟨pages', hsome, hlen, hpages, hflat⟩ :=
        ih (idx + min rows.length (cards.length - idx)) (by omega)
      refine ⟨⟨pw, ph, bg,
          (List.range (min rows.length (cards.length - idx))).flatMap
            (fun j => rowPlacements ph cards (rows.getD j []) (idx + j))⟩ ::
          pages', ?_, ?_, ?_, ?_⟩
      · unfold paginate
        rw [if_neg hle, processPage_eq pw ph rows cards idx bg h2]
        dsimp only
        rw [hsome]
      · simp only [List.length_cons, hlen]
        by_cases hcase : cards.length - idx ≤ rows.length
        · have hk : min rows.length (cards.length - idx) = cards.length - idx := by
            omega
          rw [hk]
          have l1 : (cards.length - (idx + (cards.length - idx)) + rows.length - 1) /
              rows.length = 0 := by
            apply Nat.div_eq_of_lt
            omega
          have l2 : (cards.length - idx + rows.length - 1) / rows.length = 1 := by
            apply Nat.div_eq_of_lt_le <;> omega
          rw [l1, l2]
        · have hk : min rows.length (cards.length - idx) = rows.length := by omega
          rw [hk]
          have e1 : cards.length - (idx + rows.length) + rows.length - 1 =
              cards.length - idx - 1 := by omega
          have e2 : cards.length - idx + rows.length - 1 =
              (cards.length - idx - 1) + rows.length := by omega
          rw [e1, e2, Nat.add_div_right _ hR0]
      · intro i hi
        cases i with
        | zero =>
          refine ⟨rfl, rfl, rfl, ?_⟩
          simp
        | succ i =>
          have hi' : i < pages'.length := by
            simp only [List.length_cons] at hi
            omega
          have hm' : 1 ≤ cards.length - (idx + min rows.length (cards.length - idx)) := by
            by_contra hq
            have h0 : cards.length - (idx + min rows.length (cards.length - idx)) = 0 := by
              omega
            rw [h0] at hlen
            have hz : pages'.length = 0 := by
              rw [hlen]
              apply Nat.div_eq_of_lt
              omega
            omega
          have hkR : min rows.length (cards.length - idx) = rows.length := by omega
          rw [hkR] at hpages
          obtain ⟨w1, w2, w3, w4⟩ := hpages i hi'
          rw [List.get_cons_succ]
          refine ⟨w1, w2, w3, ?_⟩
          rw [w4]
          have e3 : cards.length - (idx + rows.length) - i * rows.length =
              cards.length - idx - Nat.succ i * rows.length := by
            rw [Nat.sub_sub, Nat.sub_sub, Nat.succ_mul]
            congr 1
            ring
          have e4 : ∀ j, idx + rows.length + i * rows.length + j =
              idx + Nat.succ i * rows.length + j := by
            intro j
            rw [Nat.succ_mul]
            ring
          rw [e3]
          exact listFlatMap_congr (fun j _ => by rw [e4 j])
      · simp only [List.flatMap_cons, hflat]
        by_cases hcase : cards.length - idx ≤ rows.length
        · have hk : min rows.length (cards.length - idx) = cards.length - idx := by
            omega
          have h0 : cards.length - (idx + (cards.length - idx)) = 0 := by omega
          rw [hk, h0]
          simp only [List.range_zero, List.flatMap_nil, List.append_nil]
          refine listFlatMap_congr (fun j hj => ?_)
          rw [List.mem_range] at hj
          rw [Nat.mod_eq_of_lt (by omega)]
        · have hk : min rows.length (cards.length - idx) = rows.length := by omega
          rw [hk]
          have hsplit : cards.length - idx =
              rows.length + (cards.length - (idx + rows.length)) := by omega
          rw [hsplit, List.range_add, List.flatMap_append, List.flatMap_map]
          congr 1
          · refine listFlatMap_congr (fun j hj => ?_)
            rw [List.mem_range] at hj
            rw [Nat.mod_eq_of_lt (by omega)]
          · refine listFlatMap_congr (fun j _ => ?_)
            rw [Nat.add_mod_left,
              show idx + (rows.length + j) = idx + rows.length + j by omega]

/-! ## Lemmas about slot detection and the driver -/

/-- Every row produced by `groupRows` is sorted left to right by `x0`. -/
theorem groupRows_sorted (cr : List Rect) :
    ∀ row ∈ groupRows cr, List.Sorted (fun a b : Rect => a.x0 ≤ b.x0) row := by
  intro row hr
  unfold groupRows at hr
  obtain ⟨y, _, rfl⟩ := List.mem_map.mp hr
  exact List.sorted_insertionSort _ _

/-- The head of a row sorted left to right has the least `x0` in the row. -/
theorem sorted_head_min {row : List Rect}
    (hs : List.Sorted (fun a b : Rect => a.x0 ≤ b.x0) row) :
    ∀ r ∈ row, (row.headD default).x0 ≤ r.x0 := by
  rcases row with _ | ⟨a, l⟩
  · intro r hr
    simp at hr
  · intro r hr
    rcases List.mem_cons.mp hr with rfl | hr
  
    · simp
    · exact List.rel_of_sorted_cons hs r hr

/-- Inversion of a successful detection: there is a main size, and the
returned grid is `groupRows` of the candidate rectangles of that size. -/
theorem detectar_ok_inv (t : Template) (pr : Rect) (sf : List Rect)
    (rows : List (List Rect))
    (hdet : detectar_slots_template t = .ok (pr, sf, rows)) :
    ∃ ms, mainSizeOf t = some ms ∧
      rows = groupRows
        ((candidateRects t).filter (fun r => decide (roundedSize r = ms))) := by
  simp only [detectar_slots_template] at hdet
  by_cases hE : (candidateRects t).isEmpty = true
  · rw [if_pos hE] at hdet
    exact absurd hdet (by simp)
  · rw [if_neg hE] at hdet
    rcases hms : mainSizeOf t with _ | ms
    · rw [hms] at hdet
      exact absurd hdet (by simp)
    · rw [hms] at hdet
      dsimp only at hdet
      by_cases hlen :
          (List.filter (fun r => decide (roundedSize r = ms))
            (candidateRects t)).length < 2
      · rw [if_pos hlen] at hdet
        exact absurd hdet (by simp)
      · rw [if_neg hlen] at hdet
        simp only [Except.ok.injEq, Prod.mk.injEq] at hdet
        obtain ⟨-, -, hrows⟩ := hdet
        exact ⟨ms, rfl, hrows.symm⟩

/-- On a successful detection, every returned row is sorted left to right
by `x0`. -/
theorem detectar_rows_sorted (t : Template) (pr : Rect) (sf : List Rect)
    (rows : List (List Rect))
    (hdet : detectar_slots_template t = .ok (pr, sf, rows)) :
    ∀ row ∈ rows, List.Sorted (fun a b : Rect => a.x0 ≤ b.x0) row := by
  obtain ⟨ms, -, hrows⟩ := detectar_ok_inv t pr sf rows hdet
  rw [hrows]
  exact groupRows_sorted _

/-- Unfolding of `gerar_pdf_final` after a successful detection: first the
first-row validation, then the pagination loop with fuel `cards.length`. -/
theorem gerar_eq_of (t : Template) (cards : List Card) (pr : Rect)
    (sf : List Rect) (rows : List (List Rect))
    (hdet : detectar_slots_template t = .ok (pr, sf, rows)) :
    gerar_pdf_final t cards =
      if (rows.headD []).length < 2 ∨ (rows.headD []).length % 2 ≠ 0 then
        .error .InvalidLayout
      else
        match paginate pr.width pr.height rows cards true cards.length 0 with
        | some pages => .ok pages
        | none => .error .NonTermination := by
  unfold gerar_pdf_final
  rw [hdet]

/-- One row step never decreases the card index. -/
theorem processRow_idx_le (ph : ℚ) (cards : List Card)
    (st : List Placement × Nat) (row : List Rect) :
    st.2 ≤ (processRow ph cards st row).2 := by
  unfold processRow
  split
  · exact le_refl _
  · split
    · simp
    · exact le_refl _

/-- The row loop never decreases the card index. -/
theorem foldl_processRow_idx_le (ph : ℚ) (cards : List Card) :
    ∀ (rows : List (List Rect)) (st : List Placement × Nat),
      st.2 ≤ (rows.foldl (processRow ph cards) st).2 := by
  intro rows
  induction rows with
  | nil => intro st; exact le_refl _
  | cons r rest ih =>
    intro st
    rw [List.foldl_cons]
    exact le_trans (processRow_idx_le ph cards st r) (ih _)

/-- Progress: when the first detected row has at least two slots and cards
remain, one page iteration strictly advances the card index. -/
theorem processPage_progress (pw ph : ℚ) (rows : List (List Rect))
    (cards : List Card) (idx : Nat) (bg : Bool)
    (h1 : 2 ≤ (rows.headD []).length) (hlt : idx < cards.length) :
    idx < (processPage pw ph rows cards idx bg).2 := by
  rcases rows with _ | ⟨r0, rest⟩
  · simp at h1
  · unfold processPage
    dsimp only
    rw [List.foldl_cons, processRow_eq, if_neg (by omega),
      if_pos (by simpa using h1)]
    calc idx < idx + 1 := Nat.lt_succ_self idx
      _ ≤ _ := foldl_processRow_idx_le ph cards rest
        ([] ++ rowPlacements ph cards r0 idx, idx + 1)

/-- Sufficiency of fuel `cards.length - idx` for the pagination loop, under
the first-row validation alone. -/
theorem paginate_some_of_first_row (pw ph : ℚ) (cards : List Card)
    (bg : Bool) (rows : List (List Rect))
    (h1 : 2 ≤ (rows.headD []).length) :
    ∀ (fuel idx : Nat), cards.length - idx ≤ fuel →
      ∃ pages, paginate pw ph rows cards bg fuel idx = some pages := by
  intro fuel
  induction fuel with
  | zero =>
    intro idx hfuel
    refine ⟨[], ?_⟩
    unfold paginate
    rw [if_pos (by omega)]
  | succ fuel ih =>
    intro idx hfuel
    by_cases hle : cards.length ≤ idx
    · refine ⟨[], ?_⟩
      unfold paginate
      rw [if_pos hle]
    · have hprog := processPage_progress pw ph rows cards idx bg h1 (by omega)
      obtain ⟨pages', hsome⟩ :=
        ih (processPage pw ph rows cards idx bg).2 (by omega)
      refine ⟨(processPage pw ph rows cards idx bg).1 :: pages', ?_⟩
      unfold paginate
      rw [if_neg hle]
      dsimp only
      rw [hsome]

/-- Detection only ever fails with `NoGeometry` or `InsufficientGeometry`. -/
theorem detectar_error_cases (t : Template) (e : GenError)
    (h : detectar_slots_template t = .error e) :
    e = .NoGeometry ∨ e = .InsufficientGeometry := by
  simp only [detectar_slots_template] at h
  by_cases hE : (candidateRects t).isEmpty = true
  · rw [if_pos hE] at h
    left
    simpa using h.symm
  · rw [if_neg hE] at h
    rcases hms : mainSizeOf t with _ | ms
    · rw [hms] at h
      left
      simpa using h.symm
    · rw [hms] at h
      dsimp only at h
      by_cases hlen :
          (List.filter (fun r => decide (roundedSize r = ms))
            (candidateRects t)).length < 2
      · rw [if_pos hlen] at h
        right
        simpa using h.symm
      · rw [if_neg hlen] at h
        exact absurd h (by simp)

/-! ## Claim theorems -/

/-- C10: for every finite card list and every grid whose first row has at
least two slots (the property the driver validates), the pagination loop
terminates: each page iteration strictly advances the card index, fuel
`cards.length - idx` always suffices for the loop to complete, and the
driver never surfaces the fuel-exhaustion marker. -/
theorem claim_C10_termination (pw ph : ℚ) (rows : List (List Rect))
    (cards : List Card) (bg : Bool)
    (h1 : 2 ≤ (rows.headD []).length) :
    (∀ idx, idx < cards.length →
      idx < (processPage pw ph rows cards idx bg).2) ∧
    (∀ fuel idx, cards.length - idx ≤ fuel →
      ∃ pages, paginate pw ph rows cards bg fuel idx = some pages) ∧
    (∀ t : Template, gerar_pdf_final t cards ≠ .error .NonTermination) := by
  refine ⟨fun idx h => processPage_progress pw ph rows cards idx bg h1 h,
    paginate_some_of_first_row pw ph cards bg rows h1, ?_⟩
  intro t hcontra
  cases hdet : detectar_slots_template t with
  | error e =>
    unfold gerar_pdf_final at hcontra
    rw [hdet] at hcontra
    rcases detectar_error_cases t e hdet with rfl | rfl <;> simp at hcontra
  | ok triple =>
    obtain ⟨pr2, sf2, rows2⟩ := triple
    rw [gerar_eq_of t cards pr2 sf2 rows2 hdet] at hcontra
    by_cases hval : (rows2.headD []).length < 2 ∨
        (rows2.headD []).length % 2 ≠ 0
    · rw [if_pos hval] at hcontra
      simp at hcontra
    · rw [if_neg hval] at hcontra
      have h1' : 2 ≤ (rows2.headD []).length := by omega
      obtain ⟨pages, hsome⟩ :=
        paginate_some_of_first_row pr2.width pr2.height cards true rows2 h1'
          cards.length 0 (by omega)
      rw [hsome] at hcontra
      simp at hcontra

/-- C10 witness: on the concrete 2 by 2 grid of `T2` with one card, the
loop completes with fuel 1. -/
theorem claim_C10_termination_witness :
    ∃ pages, paginate 500 500 rowsT2 [cardA] true 1 0 = some pages :=
  (claim_C10_termination 500 500 rowsT2 [cardA] true (by decide)).2.1 1 0
    (by decide)

/-- C9: two runs of the pipeline on equal template and card inputs compute
identical placement geometries. The model is a pure function of the parsed
inputs and the (deterministic) rasterizer each card carries, so equal
inputs give equal results; the claim excludes image re-encoding, which the
placement geometry does not contain. -/
theorem claim_C9_determinism (t1 t2 : Template) (c1 c2 : List Card)
    (ht : t1 = t2) (hc : c1 = c2) :
    resultPlacements (gerar_pdf_final t1 c1) =
      resultPlacements (gerar_pdf_final t2 c2) := by
  rw [ht, hc]

/-- C9 witness: the two runs on `T2` with one card agree. -/
theorem claim_C9_determinism_witness :
    resultPlacements (gerar_pdf_final T2 [cardA]) =
      resultPlacements (gerar_pdf_final T2 [cardA]) :=
  claim_C9_determinism T2 T2 [cardA] [cardA] rfl rfl

/-- C1 counterexample: the template `T1` is detected with a ragged grid
whose second row has 3 slots (different from the first row's 2, and odd),
yet generation succeeds instead of failing with `InvalidLayout`: only the
first row is validated. -/
theorem claim_C1_counterexample :
    detectar_slots_template T1 = .ok (T1.pageRect, rowsT1.flatten, rowsT1) ∧
    rowsT1.map List.length = [2, 3] ∧
    gerar_pdf_final T1 [] = .ok [] := by
  refine ⟨by with_unfolding_all rfl, rfl, by with_unfolding_all rfl⟩

/-- C1 (amended): generation fails with `InvalidLayout` exactly when the
first detected row's slot count is odd or less than 2; rows beyond the
first are not validated. -/
theorem claim_C1_first_row_validation (t : Template) (cards : List Card)
    (pr : Rect) (sf : List Rect) (rows : List (List Rect))
    (hdet : detectar_slots_template t = .ok (pr, sf, rows)) :
    gerar_pdf_final t cards = .error .InvalidLayout ↔
      ((rows.headD []).length < 2 ∨ (rows.headD []).length % 2 ≠ 0) := by
  rw [gerar_eq_of t cards pr sf rows hdet]
  by_cases hval : (rows.headD []).length < 2 ∨ (rows.headD []).length % 2 ≠ 0
  · rw [if_pos hval]
    exact ⟨fun _ => hval, fun _ => rfl⟩
  · rw [if_neg hval]
    constructor
    · intro hcontra
      exfalso
      cases hpag : paginate pr.width pr.height rows cards true cards.length 0 with
      | some pages =>
        rw [hpag] at hcontra
        exact absurd hcontra (by simp)
      | none =>
        rw [hpag] at hcontra
        exact absurd hcontra (by simp)
    · intro h
      exact absurd h hval

/-- C1 witness: the template `T4`, whose first detected row has a single
slot, fails with `InvalidLayout`. -/
theorem claim_C1_first_row_validation_witness :
    gerar_pdf_final T4 [] = .error .InvalidLayout :=
  (claim_C1_first_row_validation T4 [] T4.pageRect rowsT4.flatten rowsT4
    (by with_unfolding_all rfl)).mpr (by decide)

/-- C7 counterexample: the grid detected in `T1` contains an odd-count row
of 3 rectangles, yet the generation call succeeds and draws a page with two
placements (so rasterization and output did occur): only the first row is
validated. -/
theorem claim_C7_counterexample :
    rowsT1.map List.length = [2, 3] ∧
    detectar_slots_template T1 = .ok (T1.pageRect, rowsT1.flatten, rowsT1) ∧
    (gerar_pdf_final T1 [cardA]).toOption.map
        (fun pgs => pgs.map (fun pg => pg.placements.length)) = some [2] := by
  refine ⟨rfl, by with_unfolding_all rfl, by with_unfolding_all rfl⟩

/-- C7 (amended): for every template whose FIRST detected row has 3
rectangles, generation fails with `InvalidLayout`; the error result carries
no pages, so no output is produced. -/
theorem claim_C7_odd_first_row (t : Template) (cards : List Card)
    (pr : Rect) (sf : List Rect) (rows : List (List Rect))
    (hdet : detectar_slots_template t = .ok (pr, sf, rows))
    (h3 : (rows.headD []).length = 3) :
    gerar_pdf_final t cards = .error .InvalidLayout := by
  rw [gerar_eq_of t cards pr sf rows hdet,
    if_pos (show (rows.headD []).length < 2 ∨ (rows.headD []).length % 2 ≠ 0 by
      rw [h3]; decide)]

/-- C7 witness: the template `T3`, whose single detected row has 3 slots,
fails with `InvalidLayout`. -/
theorem claim_C7_odd_first_row_witness :
    gerar_pdf_final T3 [cardA] = .error .InvalidLayout :=
  claim_C7_odd_first_row T3 [cardA] T3.pageRect rowsT3.flatten rowsT3
    (by with_unfolding_all rfl) (by decide)

/-- C5: for every card list and template whose detected grid has nonempty
rows of exactly 2 slots each, generation succeeds and the output has
exactly `ceil(cards / rows)` pages; each page `i` holds `2 * min(rows,
remaining)` placements, so the last page's unused rows hold none; and the
empty card list yields zero pages (no `showPage` is ever issued). -/
theorem claim_C5_pagination (t : Template) (cards : List Card)
    (pr : Rect) (sf : List Rect) (rows : List (List Rect))
    (hdet : detectar_slots_template t = .ok (pr, sf, rows))
    (hrows : ∀ row ∈ rows, row.length = 2) (hne : rows ≠ []) :
    ∃ pages, gerar_pdf_final t cards = .ok pages ∧
      pages.length = (cards.length + rows.length - 1) / rows.length ∧
      (cards = [] → pages = []) ∧
      (∀ i, ∀ h : i < pages.length,
        (pages.get ⟨i, h⟩).placements.length =
          2 * min rows.length (cards.length - i * rows.length)) := by
  have hR0 : 0 < rows.length := List.length_pos.mpr hne
  have h2 : ∀ row ∈ rows, 2 ≤ row.length := fun row hr =>
    le_of_eq (hrows row hr).symm
  have hfirst : (rows.headD []).length = 2 := by
    rcases rows with _ | ⟨r0, rest⟩
    · exact absurd rfl hne
    · exact hrows r0 (List.mem_cons_self r0 rest)
  obtain ⟨pages, hsome, hlen, hpages, -⟩ :=
    paginate_spec pr.width pr.height cards true rows h2 hne cards.length 0
      (by omega)
  have hval : ¬((rows.headD []).length < 2 ∨ (rows.headD []).length % 2 ≠ 0) := by
    rw [hfirst]
    decide
  refine ⟨pages, ?_, ?_, ?_, ?_⟩
  · rw [gerar_eq_of t cards pr sf rows hdet, if_neg hval, hsome]
  · rw [hlen]
    rfl
  · intro hc
    subst hc
    have hz : pages.length = 0 := by
      rw [hlen]
      apply Nat.div_eq_of_lt
      simp only [List.length_nil]
      omega
    exact List.length_eq_zero.mp hz
  · intro i h
    obtain ⟨-, -, -, w4⟩ := hpages i h
    rw [w4, List.length_flatMap]
    have hmap : List.map
        (List.length ∘ fun j => rowPlacements pr.height cards (rows.getD j [])
          (0 + i * rows.length + j))
        (List.range (min rows.length (cards.length - 0 - i * rows.length))) =
        List.map (fun _ => 2)
          (List.range (min rows.length (cards.length - 0 - i * rows.length))) := by
      apply List.map_congr_left
      intro j hj
      rw [List.mem_range] at hj
      have hjR : j < rows.length := lt_of_lt_of_le hj (min_le_left _ _)
      have hmem : rows.getD j [] ∈ rows := by
        rw [List.getD_eq_getElem rows [] hjR]
        exact List.getElem_mem hjR
      obtain ⟨a, b, hab⟩ := List.length_eq_two.mp (hrows _ hmem)
      simp only [Function.comp_apply]
      rw [hab]
      rfl
    rw [hmap, List.map_const', List.sum_replicate, List.length_range,
      smul_eq_mul]
    simp only [Nat.sub_zero]
    exact Nat.mul_comm _ 2

/-- C5 witness: three cards on the 2-row grid of `T2` produce exactly
`ceil(3 / 2) = 2` pages. -/
theorem claim_C5_pagination_witness :
    ∃ pages, gerar_pdf_final T2 [cardA, cardA, cardA] = .ok pages ∧
      pages.length = 2 := by
  obtain ⟨pages, hok, hlen, -, -⟩ :=
    claim_C5_pagination T2 [cardA, cardA, cardA] T2.pageRect rowsT2.flatten
      rowsT2 (by with_unfolding_all rfl) (by decide) (by decide)
  exact ⟨pages, hok, by rw [hlen]; rfl⟩

/-- C8: for every successful run on a grid whose rows all have at least two
slots, the concatenated placements of all pages enumerate the cards
strictly in input order, one card per row in row-major page order (card `i`
lands in row `i mod rows.length` of page `i / rows.length`), each card
placed by `rowPlacements`: its left half into the row's first slot and its
right half into the row's second slot; and in every detected row the first
slot is the leftmost one. -/
theorem claim_C8_ordering (t : Template) (cards : List Card)
    (pr : Rect) (sf : List Rect) (rows : List (List Rect)) (pages : List Page)
    (hdet : detectar_slots_template t = .ok (pr, sf, rows))
    (h2 : ∀ row ∈ rows, 2 ≤ row.length)
    (hok : gerar_pdf_final t cards = .ok pages) :
    pages.flatMap Page.placements =
      (List.range cards.length).flatMap
        (fun i => rowPlacements pr.height cards
          (rows.getD (i % rows.length) []) i) ∧
    (∀ row ∈ rows, ∀ r ∈ row, (row.headD default).x0 ≤ r.x0) := by
  constructor
  · rw [gerar_eq_of t cards pr sf rows hdet] at hok
    by_cases hval : (rows.headD []).length < 2 ∨ (rows.headD []).length % 2 ≠ 0
    · rw [if_pos hval] at hok
      exact absurd hok (by simp)
    · rw [if_neg hval] at hok
      have hne : rows ≠ [] := by
        intro h0
        apply hval
        left
        rw [h0]
        decide
      obtain ⟨pages0, hsome, -, -, hflat⟩ :=
        paginate_spec pr.width pr.height cards true rows h2 hne cards.length 0
          (by omega)
      rw [hsome] at hok
      simp only [Except.ok.injEq] at hok
      rw [← hok, hflat]
      simp only [Nat.sub_zero, Nat.zero_add]
  · intro row hr r hrr
    exact sorted_head_min (detectar_rows_sorted t pr sf rows hdet row hr) r hrr

/-- C8 witness: the single-card run on `T2` places card 0 into the first
row, left half first. -/
theorem claim_C8_ordering_witness :
    ∃ pages, gerar_pdf_final T2 [cardA] = .ok pages ∧
      pages.flatMap Page.placements =
        (List.range 1).flatMap
          (fun i => rowPlacements T2.pageRect.height [cardA]
            (rowsT2.getD (i % rowsT2.length) []) i) := by
  cases hE : gerar_pdf_final T2 [cardA] with
  | error e =>
    exfalso
    have hok : (gerar_pdf_final T2 [cardA]).isOk = true := by
      with_unfolding_all rfl
    rw [hE] at hok
    simp [Except.isOk, Except.toBool] at hok
  | ok pages =>
    refine ⟨pages, rfl, ?_⟩
    exact (claim_C8_ordering T2 [cardA] T2.pageRect rowsT2.flatten rowsT2
      pages (by with_unfolding_all rfl) (by decide) hE).1

/-- C2 (modelled from the spec, section 4.6): the no-template generation
operation works on a synthesized grid on the standard letter page with
exactly 5 rows, 2 columns per row, slots inside the 36-unit page margins
with the usable area evenly divided; it runs the same pagination pipeline
(`paginate`, hence `processRow`, `placeCardInRow`, `compute_trimmed_clip`
and `fit_and_center` per card) and draws no background image on any page. -/
theorem claim_C2_no_template (cards : List Card) :
    synth_rows.length = 5 ∧
    (∀ row ∈ synth_rows, row.length = 2) ∧
    (∀ r ∈ synth_rows.flatten,
      36 ≤ r.x0 ∧ r.x1 ≤ letter_width - 36 ∧ 36 ≤ r.y0 ∧
        r.y1 ≤ letter_height - 36 ∧
        r.width = (letter_width - 2 * 36) / 2 ∧
        r.height = (letter_height - 2 * 36) / 5) ∧
    gerar_pdf_sem_template cards =
      paginate letter_width letter_height synth_rows cards false
        cards.length 0 ∧
    ∃ pages, gerar_pdf_sem_template cards = some pages ∧
      ∀ pg ∈ pages, pg.width = letter_width ∧ pg.height = letter_height ∧
        pg.hasBackground = false := by
  refine ⟨rfl, by decide, by with_unfolding_all decide, rfl, ?_⟩
  obtain ⟨pages, hsome, -, hpages, -⟩ :=
    paginate_spec letter_width letter_height cards false synth_rows
      (by decide) (by decide) cards.length 0 (by omega)
  refine ⟨pages, hsome, ?_⟩
  intro pg hpg
  obtain ⟨⟨i, hi⟩, rfl⟩ := List.mem_iff_get.mp hpg
  obtain ⟨w1, w2, w3, -⟩ := hpages i hi
  exact ⟨w1, w2, w3⟩

/-- C2 witness: the no-template run on one card succeeds and draws no
background on any page. -/
theorem claim_C2_no_template_witness :
    ∃ pages, gerar_pdf_sem_template [cardA] = some pages ∧
      ∀ pg ∈ pages, pg.width = letter_width ∧ pg.height = letter_height ∧
        pg.hasBackground = false :=
  (claim_C2_no_template [cardA]).2.2.2.2

/-- The number of kept card rectangles equals the multiplicity of the main
size in the size multiset. -/
theorem count_size_eq_filter_length (t : Template) (ms : ℚ × ℚ) :
    (sizesOf t).count ms =
      (List.filter (fun r => decide (roundedSize r = ms))
        (candidateRects t)).length := by
  rw [← List.countP_eq_length_filter, sizesOf, List.count_eq_countP,
    List.countP_map]
  apply List.countP_congr
  intro r _
  constructor
  · intro h
    simp only [Function.comp_apply, beq_iff_eq] at h
    simpa using h
  · intro h
    simp only [decide_eq_true_eq] at h
    simp [Function.comp_apply, h]

/-- C6: slot detection fails with `NoGeometry` exactly when no candidate
rectangle (width and height above 20 page units) exists; given the most
frequent rounded size `ms` (which indeed maximizes the multiplicity among
all candidate sizes), detection fails with `InsufficientGeometry` exactly
when fewer than 2 rectangles share `ms`, and succeeds when at least 2 do. -/
theorem claim_C6_detection_errors (t : Template) :
    (detectar_slots_template t = .error .NoGeometry ↔ candidateRects t = []) ∧
    ∀ ms, mainSizeOf t = some ms →
      ((∀ s ∈ sizesOf t, (sizesOf t).count s ≤ (sizesOf t).count ms) ∧
        (detectar_slots_template t = .error .InsufficientGeometry ↔
          (sizesOf t).count ms < 2) ∧
        (2 ≤ (sizesOf t).count ms → (detectar_slots_template t).isOk = true)) := by
  constructor
  · constructor
    · intro h
      by_contra hne
      obtain ⟨ms, hms⟩ : ∃ ms, mainSizeOf t = some ms := by
        cases hcase : mainSizeOf t with
        | some ms => exact ⟨ms, rfl⟩
        | none =>
          rw [mainSizeOf, List.argmax_eq_none, sizesOf, List.map_eq_nil_iff]
            at hcase
          exact absurd hcase hne
      simp only [detectar_slots_template] at h
      rw [if_neg (by simpa [List.isEmpty_iff] using hne), hms] at h
      dsimp only at h
      split at h
      · exact absurd h (by simp)
      · exact absurd h (by simp)
    · intro hc
      simp only [detectar_slots_template]
      rw [if_pos (by rw [hc]; rfl)]
  · intro ms hms
    have hmax : ∀ s ∈ sizesOf t, (sizesOf t).count s ≤ (sizesOf t).count ms :=
      fun s hs => List.le_of_mem_argmax hs hms
    have hne : candidateRects t ≠ [] := by
      intro h0
      rw [mainSizeOf, sizesOf, h0] at hms
      simp [List.argmax_nil] at hms
    refine ⟨hmax, ?_, ?_⟩
    · rw [count_size_eq_filter_length t ms]
      simp only [detectar_slots_template]
      rw [if_neg (by simpa [List.isEmpty_iff] using hne), hms]
      dsimp only
      by_cases hlen :
          (List.filter (fun r => decide (roundedSize r = ms))
            (candidateRects t)).length < 2
      · rw [if_pos hlen]
        exact ⟨fun _ => hlen, fun _ => rfl⟩
      · rw [if_neg hlen]
        constructor
        · intro h
          exact absurd h (by simp)
        · intro h
          exact absurd h hlen
    · intro hge
      rw [count_size_eq_filter_length t ms] at hge
      simp only [detectar_slots_template]
      rw [if_neg (by simpa [List.isEmpty_iff] using hne), hms]
      dsimp only
      rw [if_neg (by omega)]
      rfl

/-- C6 witness: on `T5` (two 30 by 30 card rectangles plus one noise
rectangle of another size) the main size is the majority one and detection
succeeds. -/
theorem claim_C6_detection_errors_witness :
    (detectar_slots_template T5).isOk = true :=
  (((claim_C6_detection_errors T5).2 (30, 30)
    (by with_unfolding_all rfl)).2.2) (by with_unfolding_all decide)
